import Mathlib

/-!
Shallow embedding of `src/covid_propagation.py` (SEIR agent simulation).

Modelling conventions:
* Python floats are modelled as exact rationals `ℚ`.
* The global pseudo-random generator is modelled as an explicit list of
  rational draws threaded through every operation; each call of
  `random.random()` or `random.gauss` consumes one element.  A call of
  `random.gauss(mean, std)` with raw draw `z` yields `mean + std * z`
  (`z` plays the role of the standard-normal sample).  Drawing from an
  exhausted list yields `0`; the real generator never runs dry, and every
  concrete input below supplies enough draws.
* `math.hypot dx dy < r` is equivalent, for rationals, to
  `0 < r ∧ dx ^ 2 + dy ^ 2 < r ^ 2`, which is how `withinRadius` is stated
  (exact for all inputs, including non-positive radii).
* The drawing-only field `size` of `Person` and all rendering code are
  omitted; they never affect the simulation state.
-/

namespace Covid

/-- The four SEIR compartments, the values of the source field `self.state`
(strings "S", "E", "I", "R" in the Python code). -/
inductive SEIRState | S | E | I | R
deriving DecidableEq, Repr

/-- One simulated individual (class `Person` of the source, lines 49-64). -/
structure Person where
  posx : ℚ
  posy : ℚ
  velx : ℚ
  vely : ℚ
  state : SEIRState
  timer : ℚ
  vaccinated : Bool
  dose : ℕ
deriving DecidableEq, Repr

/-- Screen width, source line 11. -/
def WIDTH : ℚ := 800

/-- Screen height, source line 11. -/
def HEIGHT : ℚ := 600

/-- Number of individuals, source line 20. -/
def N : ℕ := 1000

/-- Transmission distance in pixels, source line 21. -/
def infection_radius : ℚ := 15

/-- Transmission probability before control measures, source line 23. -/
def p_transmission_uncontrolled : ℚ := 3/10

/-- Transmission probability after control measures, source line 24. -/
def p_transmission_controlled : ℚ := 1/10

/-- Day on which control measures start, source line 25. -/
def control_time : ℚ := 200

/-- Time step in days, source line 27. -/
def dt : ℚ := 1/10

/-- Maximum speed in pixels per day, source line 29. -/
def max_speed : ℚ := 4

/-- Incubation period mean, source line 32. -/
def incubation_mean : ℚ := 60

/-- Incubation period standard deviation, source line 33. -/
def incubation_std : ℚ := 20

/-- Infectious period mean, source line 35. -/
def infectious_mean : ℚ := 80

/-- Infectious period standard deviation, source line 36. -/
def infectious_std : ℚ := 15

/-- Consume one draw from the random stream (returns the draw and the
remaining stream; an exhausted stream yields 0). -/
def draw : List ℚ → ℚ × List ℚ
  | [] => (0, [])
  | x :: xs => (x, xs)

/-- One axis of the wrap-around boundary treatment of `Person.update`
(source lines 71-78): a coordinate below 0 is shifted up by the dimension,
a coordinate strictly above the dimension is shifted down by it. -/
def wrapCoord (x dim : ℚ) : ℚ :=
  if x < 0 then x + dim
  else if x > dim then x - dim
  else x

/-- `Person.update` (source lines 66-91): move by `velocity * dt`, wrap both
axes, then run the compartment-timer logic.  While Exposed (resp. Infectious)
the agent increments its timer by `dt` and compares it against
`max 0 (mean + std * z)` where `z` is a fresh gauss draw taken this very call;
on the Exposed → Infectious transition the timer is reset to 0, on the
Infectious → Recovered transition it is not touched again (it keeps the
incremented value). -/
def Person.update (p : Person) (dt : ℚ) (rng : List ℚ) : Person × List ℚ :=
  let q := { p with posx := wrapCoord (p.posx + p.velx * dt) WIDTH,
                    posy := wrapCoord (p.posy + p.vely * dt) HEIGHT }
  match q.state with
  | .E =>
    let z := (draw rng).1
    let rng' := (draw rng).2
    if q.timer + dt ≥ max 0 (incubation_mean + incubation_std * z) then
      ({ q with state := .I, timer := 0 }, rng')
    else
      ({ q with timer := q.timer + dt }, rng')
  | .I =>
    let z := (draw rng).1
    let rng' := (draw rng).2
    if q.timer + dt ≥ max 0 (infectious_mean + infectious_std * z) then
      ({ q with state := .R, timer := q.timer + dt }, rng')
    else
      ({ q with timer := q.timer + dt }, rng')
  | _ => (q, rng)

/-- Update every person in order, threading the random stream through
(source lines 149-150). -/
def updateAll (dt : ℚ) : List Person → List ℚ → List Person × List ℚ
  | [], rng => ([], rng)
  | p :: ps, rng =>
    let r := p.update dt rng
    let rest := updateAll dt ps r.2
    (r.1 :: rest.1, rest.2)

/-- Default person used to totalise list indexing; the simulation only ever
indexes inside the population, so this value is never consulted there.  Its
compartment is Recovered, which no transmission-phase test matches. -/
def dPerson : Person :=
  { posx := 0, posy := 0, velx := 0, vely := 0, state := .R, timer := 0,
    vaccinated := false, dose := 0 }

/-- `population[k]`, totalised with `dPerson` out of range. -/
def getP (pop : List Person) (k : ℕ) : Person := pop.getD k dPerson

/-- The strict Euclidean-distance test of the contact scan (source line 164):
`math.hypot dx dy < r` holds exactly when `0 < r` and `dx ^ 2 + dy ^ 2 < r ^ 2`. -/
def withinRadius (dx dy r : ℚ) : Bool :=
  decide (0 < r) && decide (dx ^ 2 + dy ^ 2 < r ^ 2)

/-- Effective transmission probability for a susceptible target
(source lines 166-174): one dose → 0.005, two doses → 0.002, any other
vaccinated dose count falls back to the base probability, unvaccinated →
base probability. -/
def effectiveProb (target : Person) (pBase : ℚ) : ℚ :=
  if target.vaccinated then
    if target.dose = 1 then 5/1000
    else if target.dose = 2 then 2/1000
    else pBase
  else pBase

/-- One transmission trial as instrumented in the embedding: the pair of
indices scanned, the effective probability used, the uniform draw consumed,
and whether the trial succeeded.  A trial is recorded exactly when the source
executes `random.random() < effective_prob` (line 175). -/
structure Trial where
  i : ℕ
  j : ℕ
  prob : ℚ
  u : ℚ
  success : Bool
deriving DecidableEq, Repr

/-- State threaded through the contact/transmission scan: current population,
trials performed so far (in order), remaining random stream. -/
structure PassState where
  pop : List Person
  trials : List Trial
  rng : List ℚ
deriving DecidableEq, Repr

/-- Inner-loop body of the contact scan (source lines 157-177) for infectious
index `i` and candidate index `j`: skip non-susceptible targets, test the
strict distance condition on the current (post-movement) positions, and on a
successful uniform trial convert the target to Exposed with timer 0. -/
def tryInfect (pB r : ℚ) (i : ℕ) (st : PassState) (j : ℕ) : PassState :=
  let pj := getP st.pop j
  if pj.state = .S then
    let pi := getP st.pop i
    let dx := |pi.posx - pj.posx|
    let dy := |pi.posy - pj.posy|
    if withinRadius dx dy r then
      let prob := effectiveProb pj pB
      let u := (draw st.rng).1
      let rng' := (draw st.rng).2
      if u < prob then
        { pop := st.pop.set j { pj with state := .E, timer := 0 },
          trials := st.trials ++ [{ i := i, j := j, prob := prob, u := u, success := true }],
          rng := rng' }
      else
        { pop := st.pop,
          trials := st.trials ++ [{ i := i, j := j, prob := prob, u := u, success := false }],
          rng := rng' }
    else st
  else st

/-- Outer-loop body of the contact scan (source lines 154-156): index `i`
is scanned against every `j` only if it is currently Infectious. -/
def infectFrom (pB r : ℚ) (st : PassState) (i : ℕ) : PassState :=
  if (getP st.pop i).state = .I then
    (List.range st.pop.length).foldl (tryInfect pB r i) st
  else st

/-- The whole contact/transmission phase of one tick (source lines 152-177),
run on the post-movement population. -/
def transmissionPass (pop : List Person) (pB r : ℚ) (rng : List ℚ) : PassState :=
  (List.range pop.length).foldl (infectFrom pB r) { pop := pop, trials := [], rng := rng }

/-- Result of one tick: new population, the trials performed, the remaining
random stream and the new simulated time. -/
structure TickResult where
  pop : List Person
  trials : List Trial
  rng : List ℚ
  time : ℚ
deriving DecidableEq, Repr

/-- One iteration of the main loop (source lines 141-177, rendering elided):
advance the clock by `dt`, pick the base probability for this tick from the
control-measure phase, move/update every agent, then run the transmission
scan on the post-movement population. -/
def tick (pop : List Person) (time : ℚ) (rng : List ℚ) : TickResult :=
  let time' := time + dt
  let pB := if time' < control_time then p_transmission_uncontrolled
            else p_transmission_controlled
  let mv := updateAll dt pop rng
  let ps := transmissionPass mv.1 pB infection_radius mv.2
  { pop := ps.pop, trials := ps.trials, rng := ps.rng, time := time' }

/-- Number of agents currently in compartment `s`
(source lines 185-188). -/
def countState (pop : List Person) (s : SEIRState) : ℕ :=
  pop.countP (fun p => p.state = s)

/-- A freshly constructed person (source lines 50-64): random position and
velocity are abstracted as the inputs `px py vx vy` (the source draws them
via `random.uniform` and a random angle/speed); compartment Susceptible,
timer 0, unvaccinated, zero doses. -/
def mkPerson (px py vx vy : ℚ) : Person :=
  { posx := px, posy := py, velx := vx, vely := vy, state := .S, timer := 0,
    vaccinated := false, dose := 0 }

/-- The vaccination assignment loop (source lines 124-128): each person is
vaccinated with probability 0.3, and a vaccinated person receives two doses
with probability 0.8, otherwise one dose.  Unvaccinated persons are left
untouched (dose stays 0 from construction). -/
def assignVaccination : List Person → List ℚ → List Person × List ℚ
  | [], rng => ([], rng)
  | p :: ps, rng =>
    let u := (draw rng).1
    let rng1 := (draw rng).2
    if u < 3/10 then
      let v := (draw rng1).1
      let rng2 := (draw rng1).2
      let p' := { p with vaccinated := true, dose := if v < 8/10 then 2 else 1 }
      let rest := assignVaccination ps rng2
      (p' :: rest.1, rest.2)
    else
      let rest := assignVaccination ps rng1
      (p :: rest.1, rest.2)

/-- Successor along the SEIR chain (Recovered is terminal). -/
def seirNext : SEIRState → SEIRState
  | .S => .E
  | .E => .I
  | .I => .R
  | .R => .R

/-- The base transmission probability a tick starting at `time` uses: the
clock is advanced by `dt` first, then compared with the control-measure
onset (source lines 141-146). -/
def tickPBase (time : ℚ) : ℚ :=
  if time + dt < control_time then p_transmission_uncontrolled
  else p_transmission_controlled

/-- Concrete Infectious agent at rest at (100, 100), used in concrete runs. -/
def cPersonI : Person :=
  { posx := 100, posy := 100, velx := 0, vely := 0, state := .I, timer := 0,
    vaccinated := false, dose := 0 }

/-- Concrete Susceptible agent at rest at (100, 100), used in concrete runs. -/
def cPersonS : Person :=
  { posx := 100, posy := 100, velx := 0, vely := 0, state := .S, timer := 0,
    vaccinated := false, dose := 0 }

/-- Concrete Exposed agent at rest at (100, 100), used in concrete runs. -/
def cPersonE : Person :=
  { posx := 100, posy := 100, velx := 0, vely := 0, state := .E, timer := 0,
    vaccinated := false, dose := 0 }

/-- Concrete Susceptible agent at x = 799.9 moving right at 1 pixel per day,
used to exercise the wrap-around boundary. -/
def cPersonEdge : Person :=
  { posx := 7999/10, posy := 100, velx := 1, vely := 0, state := .S, timer := 0,
    vaccinated := false, dose := 0 }

/-- Concrete Susceptible agent at x = 799.9 moving right at 5 pixels per
day, the agent of the spec's wrap-around example. -/
def cPersonFast : Person :=
  { posx := 7999/10, posy := 100, velx := 5, vely := 0, state := .S, timer := 0,
    vaccinated := false, dose := 0 }

/-- Concrete three-agent population: two Infectious agents and one
Susceptible agent, all at the same point. -/
def cPop3 : List Person := [cPersonI, cPersonI, cPersonS]

/-- Concrete population of one Infectious and two Susceptible agents, all at
the same point. -/
def cPopISS : List Person := [cPersonI, cPersonS, cPersonS]

/-- Concrete population of one Infectious and one Susceptible agent at the
same point. -/
def cPopIS : List Person := [cPersonI, cPersonS]

/-! ### Basic indexing lemmas -/

lemma getP_nil (k : ℕ) : getP [] k = dPerson := by
  cases k <;> rfl

lemma getP_cons_zero (p : Person) (ps : List Person) : getP (p :: ps) 0 = p := rfl

lemma getP_cons_succ (p : Person) (ps : List Person) (k : ℕ) :
    getP (p :: ps) (k + 1) = getP ps k := rfl

lemma getP_out (pop : List Person) (k : ℕ) (h : pop.length ≤ k) :
    getP pop k = dPerson := by
  induction pop generalizing k with
  | nil => exact getP_nil k
  | cons p ps ih =>
    cases k with
    | zero => simp at h
    | succ k => exact ih k (by simpa using h)

lemma getP_set_self (pop : List Person) (k : ℕ) (a : Person) (h : k < pop.length) :
    getP (pop.set k a) k = a := by
  induction pop generalizing k with
  | nil => simp at h
  | cons p ps ih =>
    cases k with
    | zero => rfl
    | succ k => exact ih k (by simpa using h)

lemma getP_set_ne (pop : List Person) (k j : ℕ) (a : Person) (h : k ≠ j) :
    getP (pop.set j a) k = getP pop k := by
  induction pop generalizing k j with
  | nil => simp [List.set]
  | cons p ps ih =>
    cases j with
    | zero =>
      cases k with
      | zero => exact absurd rfl h
      | succ k => rfl
    | succ j =>
      cases k with
      | zero => rfl
      | succ k => exact ih k j (fun hkj => h (by omega))

/-! ### Lemmas about `Person.update` -/

lemma update_velx (p : Person) (d : ℚ) (rng : List ℚ) :
    ((p.update d rng).1).velx = p.velx := by
  rcases p with ⟨px, py, vx, vy, s, t, vac, ds⟩
  cases s <;> simp [Person.update] <;> split <;> rfl

lemma update_vely (p : Person) (d : ℚ) (rng : List ℚ) :
    ((p.update d rng).1).vely = p.vely := by
  rcases p with ⟨px, py, vx, vy, s, t, vac, ds⟩
  cases s <;> simp [Person.update] <;> split <;> rfl

lemma update_vaccinated (p : Person) (d : ℚ) (rng : List ℚ) :
    ((p.update d rng).1).vaccinated = p.vaccinated := by
  rcases p with ⟨px, py, vx, vy, s, t, vac, ds⟩
  cases s <;> simp [Person.update] <;> split <;> rfl

lemma update_dose (p : Person) (d : ℚ) (rng : List ℚ) :
    ((p.update d rng).1).dose = p.dose := by
  rcases p with ⟨px, py, vx, vy, s, t, vac, ds⟩
  cases s <;> simp [Person.update] <;> split <;> rfl

lemma update_posx (p : Person) (d : ℚ) (rng : List ℚ) :
    ((p.update d rng).1).posx = wrapCoord (p.posx + p.velx * d) WIDTH := by
  rcases p with ⟨px, py, vx, vy, s, t, vac, ds⟩
  cases s <;> simp [Person.update] <;> split <;> rfl

lemma update_posy (p : Person) (d : ℚ) (rng : List ℚ) :
    ((p.update d rng).1).posy = wrapCoord (p.posy + p.vely * d) HEIGHT := by
  rcases p with ⟨px, py, vx, vy, s, t, vac, ds⟩
  cases s <;> simp [Person.update] <;> split <;> rfl

/-- Characterization of the Exposed branch of `Person.update`: the timer is
incremented by `dt` and compared against a clamped gauss value built from a
fresh draw taken this call; the draw is consumed either way. -/
lemma update_E_char (p : Person) (d : ℚ) (rng : List ℚ) (h : p.state = .E) :
    (((p.update d rng).1).state
        = (if p.timer + d ≥ max 0 (incubation_mean + incubation_std * (draw rng).1)
           then SEIRState.I else SEIRState.E))
    ∧ (((p.update d rng).1).timer
        = (if p.timer + d ≥ max 0 (incubation_mean + incubation_std * (draw rng).1)
           then 0 else p.timer + d))
    ∧ (p.update d rng).2 = (draw rng).2 := by
  rcases p with ⟨px, py, vx, vy, s, t, vac, ds⟩
  cases s <;> simp_all [Person.update] <;> split <;> simp_all

/-- Characterization of the Infectious branch of `Person.update`: the timer is
incremented by `dt` and compared against a clamped gauss value built from a
fresh draw taken this call; on transition to Recovered the timer keeps its
incremented value (it is not reset). -/
lemma update_I_char (p : Person) (d : ℚ) (rng : List ℚ) (h : p.state = .I) :
    (((p.update d rng).1).state
        = (if p.timer + d ≥ max 0 (infectious_mean + infectious_std * (draw rng).1)
           then SEIRState.R else SEIRState.I))
    ∧ ((p.update d rng).1).timer = p.timer + d
    ∧ (p.update d rng).2 = (draw rng).2 := by
  rcases p with ⟨px, py, vx, vy, s, t, vac, ds⟩
  cases s <;> simp_all [Person.update] <;> split <;> simp_all

/-- Susceptible and Recovered agents only move: state, timer and random
stream are untouched. -/
lemma update_SR_char (p : Person) (d : ℚ) (rng : List ℚ)
    (h : p.state = .S ∨ p.state = .R) :
    ((p.update d rng).1).state = p.state
    ∧ ((p.update d rng).1).timer = p.timer
    ∧ (p.update d rng).2 = rng := by
  rcases p with ⟨px, py, vx, vy, s, t, vac, ds⟩
  rcases h with h | h <;> cases s <;> simp_all [Person.update]

/-- Every state change `Person.update` performs is a single step along the
SEIR chain: Exposed → Infectious or Infectious → Recovered. -/
lemma update_state_step (p : Person) (d : ℚ) (rng : List ℚ) :
    ((p.update d rng).1).state = p.state
    ∨ (p.state = .E ∧ ((p.update d rng).1).state = .I)
    ∨ (p.state = .I ∧ ((p.update d rng).1).state = .R) := by
  rcases p with ⟨px, py, vx, vy, s, t, vac, ds⟩
  cases s <;> simp [Person.update] <;> split <;> simp

/-- The timer after `Person.update` is `0`, the old timer, or the old timer
plus `dt`. -/
lemma update_timer_cases (p : Person) (d : ℚ) (rng : List ℚ) :
    ((p.update d rng).1).timer = 0
    ∨ ((p.update d rng).1).timer = p.timer
    ∨ ((p.update d rng).1).timer = p.timer + d := by
  rcases p with ⟨px, py, vx, vy, s, t, vac, ds⟩
  cases s <;> simp [Person.update] <;> split <;> simp

/-! ### Lemmas about `updateAll` -/

lemma updateAll_length (d : ℚ) (pop : List Person) (rng : List ℚ) :
    (updateAll d pop rng).1.length = pop.length := by
  induction pop generalizing rng with
  | nil => rfl
  | cons p ps ih => simp [updateAll, ih]

/-- Pointwise view of `updateAll`: the person at an in-range index `k` of the
output is the update of the person at `k` of the input, for some suffix of
the random stream. -/
lemma getP_updateAll (d : ℚ) (pop : List Person) (rng : List ℚ) (k : ℕ)
    (h : k < pop.length) :
    ∃ r, getP (updateAll d pop rng).1 k = ((getP pop k).update d r).1 := by
  induction pop generalizing rng k with
  | nil => simp at h
  | cons p ps ih =>
    cases k with
    | zero => exact ⟨rng, rfl⟩
    | succ k =>
      obtain ⟨r, hr⟩ := ih (p.update d rng).2 k (by simpa using h)
      exact ⟨r, by simpa [updateAll, getP_cons_succ] using hr⟩

lemma getP_updateAll_out (d : ℚ) (pop : List Person) (rng : List ℚ) (k : ℕ)
    (h : pop.length ≤ k) :
    getP (updateAll d pop rng).1 k = getP pop k := by
  rw [getP_out _ _ (by simpa [updateAll_length] using h), getP_out _ _ h]

/-! ### Invariants of the transmission pass -/

/-- Relation between a slot of the input population of the transmission pass
and the same slot during the pass: kinematic and vaccination fields are
untouched, and the compartment either is unchanged (with unchanged timer) or
has moved Susceptible → Exposed with the timer reset to 0. -/
def Evolves (p q : Person) : Prop :=
  q.posx = p.posx ∧ q.posy = p.posy ∧ q.velx = p.velx ∧ q.vely = p.vely
  ∧ q.vaccinated = p.vaccinated ∧ q.dose = p.dose
  ∧ ((q.state = p.state ∧ q.timer = p.timer)
     ∨ (p.state = .S ∧ q.state = .E ∧ q.timer = 0))

lemma evolves_refl (p : Person) : Evolves p p := by
  simp [Evolves]

/-- Soundness facts of one recorded trial, relative to the population the
pass started from: the pair is in range, the source is Infectious, the target
is Susceptible (in the input), the strict distance test on the unwrapped
input positions holds, the probability is the effective probability of the
target, and success is exactly a strict uniform comparison. -/
def TrialSound (pop0 : List Person) (pB r : ℚ) (t : Trial) : Prop :=
  t.i < pop0.length ∧ t.j < pop0.length
  ∧ (getP pop0 t.i).state = .I ∧ (getP pop0 t.j).state = .S
  ∧ withinRadius |(getP pop0 t.i).posx - (getP pop0 t.j).posx|
      |(getP pop0 t.i).posy - (getP pop0 t.j).posy| r = true
  ∧ t.prob = effectiveProb (getP pop0 t.j) pB
  ∧ (t.success = true ↔ t.u < t.prob)

/-- Full invariant of the transmission scan, relative to the population
`pop0` it started from: every slot merely evolves (position, velocity and
vaccination untouched, at most one Susceptible → Exposed step); every
recorded trial is sound; every state change is justified by a successful
recorded trial; and after any successful trial its target is Exposed with
timer 0 and no later trial targets it. -/
def Inv (pop0 : List Person) (pB r : ℚ) (st : PassState) : Prop :=
  st.pop.length = pop0.length
  ∧ (∀ k : ℕ, Evolves (getP pop0 k) (getP st.pop k))
  ∧ (∀ t ∈ st.trials, TrialSound pop0 pB r t)
  ∧ (∀ k : ℕ, (getP st.pop k).state ≠ (getP pop0 k).state →
      ∃ t ∈ st.trials, t.j = k ∧ t.success = true)
  ∧ (∀ l1 t1 l2, st.trials = l1 ++ t1 :: l2 → t1.success = true →
      (∀ t2 ∈ l2, t2.j ≠ t1.j)
      ∧ (getP st.pop t1.j).state = .E ∧ (getP st.pop t1.j).timer = 0)

lemma effectiveProb_congr (p q : Person) (pB : ℚ)
    (hv : q.vaccinated = p.vaccinated) (hd : q.dose = p.dose) :
    effectiveProb q pB = effectiveProb p pB := by
  simp [effectiveProb, hv, hd]

/-- Decomposition of a one-element extension of a list around a chosen
middle element: the split point lies in the old part or is the new element. -/
lemma append_singleton_decomp {α : Type} (ts : List α) (t : α)
    (l1 : List α) (t1 : α) (l2 : List α) (h : ts ++ [t] = l1 ++ t1 :: l2) :
    (∃ l2', l2 = l2' ++ [t] ∧ ts = l1 ++ t1 :: l2') ∨ (l1 = ts ∧ t1 = t ∧ l2 = []) := by
  rcases l2.eq_nil_or_concat with h2 | ⟨l2', x, h2⟩
  · subst h2
    have := List.append_inj' h (by rfl)
    exact Or.inr ⟨this.1.symm, by simpa using this.2.symm, rfl⟩
  · subst h2
    have h' : ts ++ [t] = (l1 ++ t1 :: l2') ++ [x] := by simpa using h
    have h2 := List.append_inj' h' (by rfl)
    have hx : t = x := by simpa using h2.2
    exact Or.inl ⟨l2', by simp [hx], h2.1⟩

/-- The non-susceptible-target skip of the inner scan. -/
lemma tryInfect_notS (pB r : ℚ) (i j : ℕ) (st : PassState)
    (h : (getP st.pop j).state ≠ .S) : tryInfect pB r i st j = st := by
  simp [tryInfect, h]

/-- The out-of-radius skip of the inner scan. -/
lemma tryInfect_far (pB r : ℚ) (i j : ℕ) (st : PassState)
    (h : withinRadius |(getP st.pop i).posx - (getP st.pop j).posx|
      |(getP st.pop i).posy - (getP st.pop j).posy| r = false) :
    tryInfect pB r i st j = st := by
  by_cases hS : (getP st.pop j).state = .S
  · simp [tryInfect, hS, h]
  · simp [tryInfect, hS]

/-- The successful-trial branch of the inner scan. -/
lemma tryInfect_succ (pB r : ℚ) (i j : ℕ) (st : PassState)
    (hS : (getP st.pop j).state = .S)
    (hw : withinRadius |(getP st.pop i).posx - (getP st.pop j).posx|
      |(getP st.pop i).posy - (getP st.pop j).posy| r = true)
    (hu : (draw st.rng).1 < effectiveProb (getP st.pop j) pB) :
    tryInfect pB r i st j =
      { pop := st.pop.set j { getP st.pop j with state := .E, timer := 0 },
        trials := st.trials ++
          [{ i := i, j := j, prob := effectiveProb (getP st.pop j) pB,
             u := (draw st.rng).1, success := true }],
        rng := (draw st.rng).2 } := by
  simp [tryInfect, hS, hw, hu]

/-- The failed-trial branch of the inner scan. -/
lemma tryInfect_fail (pB r : ℚ) (i j : ℕ) (st : PassState)
    (hS : (getP st.pop j).state = .S)
    (hw : withinRadius |(getP st.pop i).posx - (getP st.pop j).posx|
      |(getP st.pop i).posy - (getP st.pop j).posy| r = true)
    (hu : ¬ (draw st.rng).1 < effectiveProb (getP st.pop j) pB) :
    tryInfect pB r i st j =
      { pop := st.pop,
        trials := st.trials ++
          [{ i := i, j := j, prob := effectiveProb (getP st.pop j) pB,
             u := (draw st.rng).1, success := false }],
        rng := (draw st.rng).2 } := by
  simp [tryInfect, hS, hw, hu]

/-- One step of the inner scan preserves the pass invariant and keeps the
scanning source Infectious. -/
lemma tryInfect_inv (pop0 : List Person) (pB r : ℚ) (i j : ℕ) (st : PassState)
    (hI : (getP st.pop i).state = .I) (hinv : Inv pop0 pB r st) :
    Inv pop0 pB r (tryInfect pB r i st j)
    ∧ (getP (tryInfect pB r i st j).pop i).state = .I := by
  obtain ⟨hlen, hev, hsound, hconv, hQ⟩ := hinv
  by_cases hS : (getP st.pop j).state = .S
  case neg =>
    rw [tryInfect_notS pB r i j st hS]
    exact ⟨⟨hlen, hev, hsound, hconv, hQ⟩, hI⟩
  by_cases hw : withinRadius |(getP st.pop i).posx - (getP st.pop j).posx|
      |(getP st.pop i).posy - (getP st.pop j).posy| r = true
  case neg =>
    rw [tryInfect_far pB r i j st (by simpa using hw)]
    exact ⟨⟨hlen, hev, hsound, hconv, hQ⟩, hI⟩
  -- facts common to the two recorded-trial branches
  have hj : j < st.pop.length := by
    by_contra hj
    rw [getP_out st.pop j (le_of_not_lt hj)] at hS
    exact absurd hS (by simp [dPerson])
  have hij : i ≠ j := by
    intro he
    rw [he, hS] at hI
    cases hI
  obtain ⟨hjx, hjy, hjvx, hjvy, hjvac, hjdose, hjst⟩ := hev j
  obtain ⟨hix, hiy, hivx, hivy, hivac, hidose, hist⟩ := hev i
  have hj0S : (getP pop0 j).state = .S := by
    rcases hjst with ⟨he, _⟩ | ⟨_, he, _⟩
    · rw [← he, hS]
    · rw [he] at hS; cases hS
  have hi0I : (getP pop0 i).state = .I := by
    rcases hist with ⟨he, _⟩ | ⟨_, he, _⟩
    · rw [← he, hI]
    · rw [he] at hI; cases hI
  have hi : i < st.pop.length := by
    by_contra hi
    rw [getP_out st.pop i (le_of_not_lt hi)] at hI
    exact absurd hI (by simp [dPerson])
  have hw0 : withinRadius |(getP pop0 i).posx - (getP pop0 j).posx|
      |(getP pop0 i).posy - (getP pop0 j).posy| r = true := by
    rw [← hix, ← hiy, ← hjx, ← hjy]; exact hw
  have hprob : effectiveProb (getP st.pop j) pB = effectiveProb (getP pop0 j) pB :=
    effectiveProb_congr _ _ pB hjvac hjdose
  by_cases hu : (draw st.rng).1 < effectiveProb (getP st.pop j) pB
  · -- successful trial: target converted, success trial appended
    rw [tryInfect_succ pB r i j st hS hw hu]
    set newt : Trial :=
      { i := i, j := j, prob := effectiveProb (getP st.pop j) pB,
        u := (draw st.rng).1, success := true } with hnewt
    refine ⟨⟨?_, ?_, ?_, ?_, ?_⟩, ?_⟩
    · simpa using hlen
    · intro k
      by_cases hk : k = j
      · subst hk
        rw [getP_set_self st.pop k _ hj]
        exact ⟨hjx, hjy, hjvx, hjvy, hjvac, hjdose, Or.inr ⟨hj0S, rfl, rfl⟩⟩
      · rw [getP_set_ne st.pop k j _ hk]
        exact hev k
    · intro t ht
      rcases List.mem_append.1 ht with ht | ht
      · exact hsound t ht
      · have : t = newt := by simpa using ht
        subst this
        refine ⟨by rw [← hlen]; exact hi, by rw [← hlen]; exact hj,
          hi0I, hj0S, hw0, hprob, ?_⟩
        simpa using hu
    · intro k hk
      by_cases hkj : k = j
      · subst hkj
        exact ⟨newt, List.mem_append_right _ (by simp), rfl, rfl⟩
      · rw [getP_set_ne st.pop k j _ hkj] at hk
        obtain ⟨t, ht, htj, hts⟩ := hconv k hk
        exact ⟨t, List.mem_append_left _ ht, htj, hts⟩
    · intro l1 t1 l2 hsplit ht1
      rcases append_singleton_decomp st.trials newt l1 t1 l2 hsplit with
        ⟨l2', hl2, hold⟩ | ⟨hl1, ht1n, hl2⟩
      · obtain ⟨hne, hE, h0⟩ := hQ l1 t1 l2' hold ht1
        have hjne : j ≠ t1.j := by
          intro he
          rw [← he] at hE
          rw [hS] at hE
          cases hE
        refine ⟨?_, ?_, ?_⟩
        · intro t2 ht2
          rw [hl2] at ht2
          rcases List.mem_append.1 ht2 with ht2 | ht2
          · exact hne t2 ht2
          · have : t2 = newt := by simpa using ht2
            subst this
            simpa [hnewt] using hjne
        · rw [getP_set_ne st.pop t1.j j _ (fun he => hjne he.symm)]
          exact hE
        · rw [getP_set_ne st.pop t1.j j _ (fun he => hjne he.symm)]
          exact h0
      · subst ht1n
        subst hl2
        refine ⟨by simp, ?_, ?_⟩
        · rw [getP_set_self st.pop j _ hj]
        · rw [getP_set_self st.pop j _ hj]
    · rw [getP_set_ne st.pop i j _ hij]
      exact hI
  · -- failed trial: population unchanged, failure trial appended
    rw [tryInfect_fail pB r i j st hS hw hu]
    set newt : Trial :=
      { i := i, j := j, prob := effectiveProb (getP st.pop j) pB,
        u := (draw st.rng).1, success := false } with hnewt
    refine ⟨⟨hlen, hev, ?_, ?_, ?_⟩, hI⟩
    · intro t ht
      rcases List.mem_append.1 ht with ht | ht
      · exact hsound t ht
      · have : t = newt := by simpa using ht
        subst this
        refine ⟨by rw [← hlen]; exact hi, by rw [← hlen]; exact hj,
          hi0I, hj0S, hw0, hprob, ?_⟩
        simpa using hu
    · intro k hk
      obtain ⟨t, ht, htj, hts⟩ := hconv k hk
      exact ⟨t, List.mem_append_left _ ht, htj, hts⟩
    · intro l1 t1 l2 hsplit ht1
      rcases append_singleton_decomp st.trials newt l1 t1 l2 hsplit with
        ⟨l2', hl2, hold⟩ | ⟨hl1, ht1n, hl2⟩
      · obtain ⟨hne, hE, h0⟩ := hQ l1 t1 l2' hold ht1
        have hjne : j ≠ t1.j := by
          intro he
          rw [← he] at hE
          rw [hS] at hE
          cases hE
        refine ⟨?_, hE, h0⟩
        intro t2 ht2
        rw [hl2] at ht2
        rcases List.mem_append.1 ht2 with ht2 | ht2
        · exact hne t2 ht2
        · have : t2 = newt := by simpa using ht2
          subst this
          simpa [hnewt] using hjne
      · subst ht1n
        simp [hnewt] at ht1

/-- The inner scan over any index list preserves the pass invariant and keeps
the scanning source Infectious. -/
lemma foldInner_inv (pop0 : List Person) (pB r : ℚ) (i : ℕ) :
    ∀ (J : List ℕ) (st : PassState), Inv pop0 pB r st → (getP st.pop i).state = .I →
    Inv pop0 pB r (J.foldl (tryInfect pB r i) st)
    ∧ (getP (J.foldl (tryInfect pB r i) st).pop i).state = .I := by
  intro J
  induction J with
  | nil => intro st hinv hI; exact ⟨hinv, hI⟩
  | cons a J ih =>
    intro st hinv hI
    obtain ⟨hinv', hI'⟩ := tryInfect_inv pop0 pB r i a st hI hinv
    exact ih (tryInfect pB r i st a) hinv' hI'

/-- One step of the outer scan preserves the pass invariant. -/
lemma infectFrom_inv (pop0 : List Person) (pB r : ℚ) (i : ℕ) (st : PassState)
    (hinv : Inv pop0 pB r st) : Inv pop0 pB r (infectFrom pB r st i) := by
  unfold infectFrom
  split
  case isTrue hI => exact (foldInner_inv pop0 pB r i _ st hinv hI).1
  case isFalse => exact hinv

/-- The outer scan over any index list preserves the pass invariant. -/
lemma foldOuter_inv (pop0 : List Person) (pB r : ℚ) :
    ∀ (L : List ℕ) (st : PassState), Inv pop0 pB r st →
    Inv pop0 pB r (L.foldl (infectFrom pB r) st) := by
  intro L
  induction L with
  | nil => intro st hinv; exact hinv
  | cons a L ih =>
    intro st hinv
    exact ih (infectFrom pB r st a) (infectFrom_inv pop0 pB r a st hinv)

/-- The initial state of the transmission pass satisfies the invariant. -/
lemma inv_init (pop : List Person) (pB r : ℚ) (rng : List ℚ) :
    Inv pop pB r { pop := pop, trials := [], rng := rng } := by
  refine ⟨rfl, fun k => evolves_refl _, by simp, fun k hk => absurd rfl hk, ?_⟩
  intro l1 t1 l2 hsplit
  exact absurd hsplit (by simp)

/-- The whole transmission pass satisfies the invariant relative to its
input population. -/
lemma pass_inv (pop : List Person) (pB r : ℚ) (rng : List ℚ) :
    Inv pop pB r (transmissionPass pop pB r rng) :=
  foldOuter_inv pop pB r _ _ (inv_init pop pB r rng)

/-- The transmission pass preserves the population size. -/
lemma pass_length (pop : List Person) (pB r : ℚ) (rng : List ℚ) :
    (transmissionPass pop pB r rng).pop.length = pop.length :=
  (pass_inv pop pB r rng).1

/-! ### Trial-list extension lemmas -/

lemma trialsExt_tryInfect (pB r : ℚ) (i j : ℕ) (st : PassState) :
    ∃ e, (tryInfect pB r i st j).trials = st.trials ++ e := by
  by_cases hS : (getP st.pop j).state = .S
  · by_cases hw : withinRadius |(getP st.pop i).posx - (getP st.pop j).posx|
        |(getP st.pop i).posy - (getP st.pop j).posy| r = true
    · by_cases hu : (draw st.rng).1 < effectiveProb (getP st.pop j) pB
      · rw [tryInfect_succ pB r i j st hS hw hu]; exact ⟨_, rfl⟩
      · rw [tryInfect_fail pB r i j st hS hw hu]; exact ⟨_, rfl⟩
    · rw [tryInfect_far pB r i j st (by simpa using hw)]; exact ⟨[], by simp⟩
  · rw [tryInfect_notS pB r i j st hS]; exact ⟨[], by simp⟩

lemma trialsExt_foldInner (pB r : ℚ) (i : ℕ) :
    ∀ (J : List ℕ) (st : PassState),
    ∃ e, (J.foldl (tryInfect pB r i) st).trials = st.trials ++ e := by
  intro J
  induction J with
  | nil => intro st; exact ⟨[], by simp⟩
  | cons a J ih =>
    intro st
    obtain ⟨e1, he1⟩ := trialsExt_tryInfect pB r i a st
    obtain ⟨e2, he2⟩ := ih (tryInfect pB r i st a)
    exact ⟨e1 ++ e2, by rw [List.foldl_cons, he2, he1, List.append_assoc]⟩

lemma trialsExt_infectFrom (pB r : ℚ) (i : ℕ) (st : PassState) :
    ∃ e, (infectFrom pB r st i).trials = st.trials ++ e := by
  unfold infectFrom
  split
  · exact trialsExt_foldInner pB r i _ st
  · exact ⟨[], by simp⟩

lemma trialsExt_foldOuter (pB r : ℚ) :
    ∀ (L : List ℕ) (st : PassState),
    ∃ e, (L.foldl (infectFrom pB r) st).trials = st.trials ++ e := by
  intro L
  induction L with
  | nil => intro st; exact ⟨[], by simp⟩
  | cons a L ih =>
    intro st
    obtain ⟨e1, he1⟩ := trialsExt_infectFrom pB r a st
    obtain ⟨e2, he2⟩ := ih (infectFrom pB r st a)
    exact ⟨e1 ++ e2, by rw [List.foldl_cons, he2, he1, List.append_assoc]⟩

/-! ### Completeness of the contact scan -/

/-- Inner-scan completeness: when the source `i` is Infectious and the inner
scan visits a target `j` that was Susceptible in the input population and
inside the radius, then afterwards either a trial of the pair `(i, j)` is on
record, or `j` was already converted by an earlier successful trial. -/
lemma foldInner_complete (pop0 : List Person) (pB r : ℚ) (i j : ℕ)
    (hjS : (getP pop0 j).state = .S)
    (hw : withinRadius |(getP pop0 i).posx - (getP pop0 j).posx|
      |(getP pop0 i).posy - (getP pop0 j).posy| r = true) :
    ∀ (J : List ℕ) (st : PassState), Inv pop0 pB r st →
    (getP st.pop i).state = .I → j ∈ J →
    (∃ t ∈ (J.foldl (tryInfect pB r i) st).trials, t.i = i ∧ t.j = j)
    ∨ (∃ t ∈ (J.foldl (tryInfect pB r i) st).trials, t.j = j ∧ t.success = true) := by
  intro J
  induction J with
  | nil => intro st _ _ hj; cases hj
  | cons a J ih =>
    intro st hinv hI hj
    by_cases haj : a = j
    · subst haj
      obtain ⟨hlen, hev, hsound, hconv, hQ⟩ := hinv
      obtain ⟨hjx, hjy, hjvx, hjvy, hjvac, hjdose, hjst⟩ := hev a
      by_cases hS : (getP st.pop a).state = .S
      · -- target still susceptible: a trial of (i, a) is recorded now
        obtain ⟨hix, hiy, _, _, _, _, _⟩ := hev i
        have hw' : withinRadius |(getP st.pop i).posx - (getP st.pop a).posx|
            |(getP st.pop i).posy - (getP st.pop a).posy| r = true := by
          rw [hix, hiy, hjx, hjy]; exact hw
        obtain ⟨e2, he2⟩ := trialsExt_foldInner pB r i J (tryInfect pB r i st a)
        by_cases hu : (draw st.rng).1 < effectiveProb (getP st.pop a) pB
        · left
          refine ⟨{ i := i, j := a, prob := effectiveProb (getP st.pop a) pB, u := (draw st.rng).1, success := true }, ?_, rfl, rfl⟩
          rw [List.foldl_cons, he2, tryInfect_succ pB r i a st hS hw' hu]
          exact List.mem_append_left _ (List.mem_append_right _ (by simp))
        · left
          refine ⟨{ i := i, j := a, prob := effectiveProb (getP st.pop a) pB, u := (draw st.rng).1, success := false }, ?_, rfl, rfl⟩
          rw [List.foldl_cons, he2, tryInfect_fail pB r i a st hS hw' hu]
          exact List.mem_append_left _ (List.mem_append_right _ (by simp))
      · -- target already converted: an earlier successful trial is on record
        right
        have hchange : (getP st.pop a).state ≠ (getP pop0 a).state := by
          rw [hjS]; exact hS
        obtain ⟨t, ht, htj, hts⟩ := hconv a hchange
        obtain ⟨e1, he1⟩ := trialsExt_tryInfect pB r i a st
        obtain ⟨e2, he2⟩ := trialsExt_foldInner pB r i J (tryInfect pB r i st a)
        refine ⟨t, ?_, htj, hts⟩
        rw [List.foldl_cons, he2, he1, List.append_assoc]
        exact List.mem_append_left _ ht
    · -- scan a different index first, then continue
      have hj' : j ∈ J := by
        rcases List.mem_cons.1 hj with h | h
        · exact absurd h.symm haj
        · exact h
      obtain ⟨hinv', hI'⟩ := tryInfect_inv pop0 pB r i a st hI hinv
      exact ih (tryInfect pB r i st a) hinv' hI' hj'

/-- Outer-scan completeness: when the outer scan visits an index `i` that is
Infectious in the input population, and `j` is in range, Susceptible in the
input population and inside the radius, then afterwards either a trial of
`(i, j)` is on record or `j` was converted by some successful trial. -/
lemma foldOuter_complete (pop0 : List Person) (pB r : ℚ) (i j : ℕ)
    (hiI : (getP pop0 i).state = .I) (hjS : (getP pop0 j).state = .S)
    (hw : withinRadius |(getP pop0 i).posx - (getP pop0 j).posx|
      |(getP pop0 i).posy - (getP pop0 j).posy| r = true)
    (hj : j < pop0.length) :
    ∀ (L : List ℕ) (st : PassState), Inv pop0 pB r st → i ∈ L →
    (∃ t ∈ (L.foldl (infectFrom pB r) st).trials, t.i = i ∧ t.j = j)
    ∨ (∃ t ∈ (L.foldl (infectFrom pB r) st).trials, t.j = j ∧ t.success = true) := by
  intro L
  induction L with
  | nil => intro st _ hi; cases hi
  | cons a L ih =>
    intro st hinv hi
    by_cases hai : a = i
    · subst hai
      have hI : (getP st.pop a).state = .I := by
        obtain ⟨_, hev, _, _, _⟩ := hinv
        obtain ⟨_, _, _, _, _, _, hst⟩ := hev a
        rcases hst with ⟨he, _⟩ | ⟨h0, _, _⟩
        · rw [he, hiI]
        · rw [h0] at hiI; cases hiI
      have hstep : infectFrom pB r st a
          = (List.range st.pop.length).foldl (tryInfect pB r a) st := by
        unfold infectFrom
        rw [if_pos hI]
      have hjmem : j ∈ List.range st.pop.length := by
        rw [List.mem_range, hinv.1]
        exact hj
      have hres := foldInner_complete pop0 pB r a j hjS hw
        (List.range st.pop.length) st hinv hI hjmem
      obtain ⟨e2, he2⟩ := trialsExt_foldOuter pB r L (infectFrom pB r st a)
      rcases hres with ⟨t, ht, hti, htj⟩ | ⟨t, ht, htj, hts⟩
      · left
        refine ⟨t, ?_, hti, htj⟩
        rw [List.foldl_cons, he2, hstep]
        exact List.mem_append_left _ ht
      · right
        refine ⟨t, ?_, htj, hts⟩
        rw [List.foldl_cons, he2, hstep]
        exact List.mem_append_left _ ht
    · have hi' : i ∈ L := by
        rcases List.mem_cons.1 hi with h | h
        · exact absurd h.symm hai
        · exact h
      exact ih (infectFrom pB r st a) (infectFrom_inv pop0 pB r a st hinv) hi'

/-- Completeness of the whole transmission pass: every qualifying pair
(Infectious source, Susceptible target, strictly inside the radius) is either
trialed, or its target was converted by a successful trial of the same pass. -/
lemma pass_complete (pop : List Person) (pB r : ℚ) (rng : List ℚ) (i j : ℕ)
    (hi : i < pop.length) (hj : j < pop.length)
    (hiI : (getP pop i).state = .I) (hjS : (getP pop j).state = .S)
    (hw : withinRadius |(getP pop i).posx - (getP pop j).posx|
      |(getP pop i).posy - (getP pop j).posy| r = true) :
    (∃ t ∈ (transmissionPass pop pB r rng).trials, t.i = i ∧ t.j = j)
    ∨ (∃ t ∈ (transmissionPass pop pB r rng).trials, t.j = j ∧ t.success = true) :=
  foldOuter_complete pop pB r i j hiI hjS hw hj (List.range pop.length)
    { pop := pop, trials := [], rng := rng } (inv_init pop pB r rng)
    (List.mem_range.2 hi)

/-! ### Auxiliary lemmas for the claim theorems -/

/-- `tick` unfolded into its phases: the clock advances by `dt`, the base
probability is chosen from the advanced clock, all agents move and update,
then the transmission pass runs on the post-movement population. -/
lemma tick_unfold (pop : List Person) (time : ℚ) (rng : List ℚ) :
    tick pop time rng =
      { pop := (transmissionPass (updateAll dt pop rng).1 (tickPBase time)
          infection_radius (updateAll dt pop rng).2).pop,
        trials := (transmissionPass (updateAll dt pop rng).1 (tickPBase time)
          infection_radius (updateAll dt pop rng).2).trials,
        rng := (transmissionPass (updateAll dt pop rng).1 (tickPBase time)
          infection_radius (updateAll dt pop rng).2).rng,
        time := time + dt } := rfl

/-- The wrapped coordinate stays inside the closed interval `[0, dim]` as
long as the pre-wrap coordinate overshoots by at most one dimension. -/
lemma wrapCoord_bounds (x dim : ℚ) (h1 : -dim ≤ x) (h2 : x ≤ 2 * dim) :
    0 ≤ wrapCoord x dim ∧ wrapCoord x dim ≤ dim := by
  unfold wrapCoord
  split_ifs with hlt hgt
  · constructor <;> linarith
  · constructor <;> linarith
  · constructor <;> linarith

/-- The strict distance test unfolded: `hypot dx dy < r` for rationals means
a positive radius and a strict comparison of squares. -/
lemma withinRadius_iff (dx dy r : ℚ) :
    withinRadius dx dy r = true ↔ (0 < r ∧ dx ^ 2 + dy ^ 2 < r ^ 2) := by
  simp [withinRadius]

/-- A non-positive radius fails the distance test against every pair. -/
lemma withinRadius_nonpos (dx dy r : ℚ) (hr : r ≤ 0) :
    withinRadius dx dy r = false := by
  unfold withinRadius
  rw [decide_eq_false (not_lt.2 hr)]
  simp

/-- With a non-positive radius the inner scan is the identity. -/
lemma tryInfect_nonpos (pB r : ℚ) (hr : r ≤ 0) (i : ℕ) (st : PassState) (j : ℕ) :
    tryInfect pB r i st j = st := by
  by_cases hS : (getP st.pop j).state = .S
  · exact tryInfect_far pB r i j st (withinRadius_nonpos _ _ r hr)
  · exact tryInfect_notS pB r i j st hS

lemma foldInner_nonpos (pB r : ℚ) (hr : r ≤ 0) (i : ℕ) :
    ∀ (J : List ℕ) (st : PassState), J.foldl (tryInfect pB r i) st = st := by
  intro J
  induction J with
  | nil => intro st; rfl
  | cons a J ih =>
    intro st
    rw [List.foldl_cons, tryInfect_nonpos pB r hr i st a, ih st]

lemma infectFrom_nonpos (pB r : ℚ) (hr : r ≤ 0) (st : PassState) (i : ℕ) :
    infectFrom pB r st i = st := by
  unfold infectFrom
  split
  · exact foldInner_nonpos pB r hr i _ st
  · rfl

lemma foldOuter_nonpos (pB r : ℚ) (hr : r ≤ 0) :
    ∀ (L : List ℕ) (st : PassState), L.foldl (infectFrom pB r) st = st := by
  intro L
  induction L with
  | nil => intro st; rfl
  | cons a L ih =>
    intro st
    rw [List.foldl_cons, infectFrom_nonpos pB r hr st a, ih st]

/-- With a non-positive radius the whole transmission pass is a no-op: no
trial happens, nothing changes, and in particular nothing is rejected. -/
lemma pass_nonpos (pop : List Person) (pB r : ℚ) (rng : List ℚ) (hr : r ≤ 0) :
    transmissionPass pop pB r rng = { pop := pop, trials := [], rng := rng } := by
  unfold transmissionPass
  exact foldOuter_nonpos pB r hr _ _

/-- The four compartment counts always add up to the population size. -/
lemma countState_sum (pop : List Person) :
    countState pop .S + countState pop .E + countState pop .I + countState pop .R
      = pop.length := by
  induction pop with
  | nil => rfl
  | cons p ps ih =>
    cases hp : p.state <;>
      simp [countState, List.countP_cons, hp] at ih ⊢ <;> omega

/-! ### Claim theorems -/

/-- C7: after every tick the four compartment counts add up to the population
size, and the tick neither creates nor destroys agents (the population length
is invariant); every agent is in exactly one compartment because `state` is a
single value of the four-element enumeration. -/
theorem c7_conservation (pop : List Person) (time : ℚ) (rng : List ℚ) :
    countState (tick pop time rng).pop .S + countState (tick pop time rng).pop .E
      + countState (tick pop time rng).pop .I + countState (tick pop time rng).pop .R
      = pop.length
    ∧ (tick pop time rng).pop.length = pop.length := by
  have hlen : (tick pop time rng).pop.length = pop.length := by
    simp only [tick_unfold]
    rw [pass_length, updateAll_length]
  exact ⟨by rw [countState_sum, hlen], hlen⟩

/-- C6: in one tick each agent's compartment either stays put or advances one
step along the chain S → E → I → R; together with induction over ticks this
makes every agent's visited-compartment sequence a prefix of S, E, I, R with
no repeats, reversals or skips. -/
theorem c6_progression (pop : List Person) (time : ℚ) (rng : List ℚ) (k : ℕ) :
    (getP (tick pop time rng).pop k).state = (getP pop k).state
    ∨ (getP (tick pop time rng).pop k).state = seirNext (getP pop k).state := by
  simp only [tick_unfold]
  by_cases hk : k < pop.length
  · obtain ⟨r, hr⟩ := getP_updateAll dt pop rng k hk
    obtain ⟨_, hev, _, _, _⟩ := pass_inv (updateAll dt pop rng).1 (tickPBase time)
      infection_radius (updateAll dt pop rng).2
    obtain ⟨_, _, _, _, _, _, hst⟩ := hev k
    have hstep := update_state_step (getP pop k) dt r
    rw [← hr] at hstep
    rcases hst with ⟨he, _⟩ | ⟨hmidS, hfinE, _⟩
    · rw [he]
      rcases hstep with h | ⟨h1, h2⟩ | ⟨h1, h2⟩
      · exact Or.inl h
      · exact Or.inr (by rw [h2, h1]; rfl)
      · exact Or.inr (by rw [h2, h1]; rfl)
    · rcases hstep with h | ⟨h1, h2⟩ | ⟨h1, h2⟩
      · rw [hfinE, ← h, hmidS]
        exact Or.inr rfl
      · rw [h2] at hmidS; cases hmidS
      · rw [h2] at hmidS; cases hmidS
  · obtain ⟨hlen, hev, _, _, _⟩ := pass_inv (updateAll dt pop rng).1 (tickPBase time)
      infection_radius (updateAll dt pop rng).2
    have h1 : getP (updateAll dt pop rng).1 k = getP pop k :=
      getP_updateAll_out dt pop rng k (le_of_not_lt hk)
    have hout : getP (transmissionPass (updateAll dt pop rng).1 (tickPBase time)
        infection_radius (updateAll dt pop rng).2).pop k = dPerson := by
      apply getP_out
      rw [hlen, updateAll_length]
      exact le_of_not_lt hk
    rw [hout, getP_out pop k (le_of_not_lt hk)]
    exact Or.inl rfl

/-- C9: once a successful trial of a transmission pass converts its target,
the conversion is immediately visible: the target is Exposed in the final
population of the pass and no later trial of the same pass targets it. -/
theorem c9_immediate_visibility (pop : List Person) (pB r : ℚ) (rng : List ℚ)
    (l1 : List Trial) (t1 : Trial) (l2 : List Trial)
    (hsplit : (transmissionPass pop pB r rng).trials = l1 ++ t1 :: l2)
    (hsucc : t1.success = true) :
    (∀ t2 ∈ l2, t2.j ≠ t1.j)
    ∧ (getP (transmissionPass pop pB r rng).pop t1.j).state = .E := by
  obtain ⟨_, _, _, _, hQ⟩ := pass_inv pop pB r rng
  obtain ⟨h1, h2, _⟩ := hQ l1 t1 l2 hsplit hsucc
  exact ⟨h1, h2⟩

/-- Witness for C9 on a concrete run: one Infectious and two Susceptible
agents; the first trial succeeds, and the theorem shows the second trial of
the same pass cannot target the converted agent (indeed it targets agent 2,
not agent 1), which is Exposed afterwards. -/
theorem c9_witness :
    (transmissionPass cPopISS (3/10) 15 [0, 1]).trials
      = [{ i := 0, j := 1, prob := 3/10, u := 0, success := true },
         { i := 0, j := 2, prob := 3/10, u := 1, success := false }]
    ∧ ({ i := 0, j := 2, prob := (3:ℚ)/10, u := 1, success := false } : Trial).j ≠ 1
    ∧ (getP (transmissionPass cPopISS (3/10) 15 [0, 1]).pop 1).state = .E := by
  have hsplit : (transmissionPass cPopISS (3/10) 15 [0, 1]).trials
      = [] ++ { i := 0, j := 1, prob := (3:ℚ)/10, u := 0, success := true }
        :: [{ i := 0, j := 2, prob := (3:ℚ)/10, u := 1, success := false }] := by
    simp [transmissionPass, infectFrom, tryInfect, getP, withinRadius, effectiveProb, draw,
      cPopISS, cPersonI, cPersonS, List.range_succ]
    norm_num
    simp [transmissionPass, infectFrom, tryInfect, getP, withinRadius, effectiveProb, draw,
      cPopISS, cPersonI, cPersonS, List.range_succ]
  have h := c9_immediate_visibility cPopISS (3/10) 15 [0, 1] []
    { i := 0, j := 1, prob := (3:ℚ)/10, u := 0, success := true }
    [{ i := 0, j := 2, prob := (3:ℚ)/10, u := 1, success := false }] hsplit rfl
  exact ⟨by simpa using hsplit, h.1 _ (by simp), h.2⟩

/-- C5: the tick's base probability is chosen once from the control-measure
phase of the advanced clock; `p2 < p1 <` base probability; the effective
probability is the target's vaccination/dose-dependent value; every trial
succeeds exactly when its fresh uniform draw is strictly below the effective
probability, and a successful target is Exposed with timer 0 afterwards. -/
theorem c5_probability_policy (pop : List Person) (time : ℚ) (rng : List ℚ) :
    ((time + dt < control_time → tickPBase time = p_transmission_uncontrolled)
      ∧ (¬ time + dt < control_time → tickPBase time = p_transmission_controlled))
    ∧ ((2/1000 : ℚ) < 5/1000 ∧ (5/1000 : ℚ) < tickPBase time)
    ∧ (∀ (q : Person) (pB' : ℚ), effectiveProb q pB' =
        if q.vaccinated = true ∧ q.dose = 1 then 5/1000
        else if q.vaccinated = true ∧ q.dose = 2 then 2/1000
        else pB')
    ∧ (∀ t ∈ (tick pop time rng).trials,
        t.prob = effectiveProb (getP (updateAll dt pop rng).1 t.j) (tickPBase time)
        ∧ (t.success = true ↔ t.u < t.prob)
        ∧ (t.success = true →
            (getP (tick pop time rng).pop t.j).state = .E
            ∧ (getP (tick pop time rng).pop t.j).timer = 0)) := by
  refine ⟨⟨fun h => by simp [tickPBase, h], fun h => by simp [tickPBase, h]⟩, ?_, ?_, ?_⟩
  · refine ⟨by norm_num, ?_⟩
    unfold tickPBase
    split <;> norm_num [p_transmission_uncontrolled, p_transmission_controlled]
  · intro q pB'
    by_cases hv : q.vaccinated = true
    · by_cases h1 : q.dose = 1
      · simp [effectiveProb, hv, h1]
      · by_cases h2 : q.dose = 2
        · simp [effectiveProb, hv, h1, h2]
        · simp [effectiveProb, hv, h1, h2]
    · simp [effectiveProb, hv]
  · intro t ht
    simp only [tick_unfold] at ht ⊢
    obtain ⟨_, _, hsound, _, hQ⟩ := pass_inv (updateAll dt pop rng).1 (tickPBase time)
      infection_radius (updateAll dt pop rng).2
    obtain ⟨_, _, _, _, _, hprob, hiff⟩ := hsound t ht
    refine ⟨hprob, hiff, ?_⟩
    intro hs
    obtain ⟨s1, s2, hsplit⟩ := List.append_of_mem ht
    obtain ⟨_, hE, h0⟩ := hQ s1 t s2 hsplit hs
    exact ⟨hE, h0⟩

/-- Witness for C5 on a concrete tick: one Infectious and one Susceptible
agent at the same point, uniform draw 0: the single trial uses base
probability 3/10 (uncontrolled phase), succeeds, and the theorem yields that
the converted target is Exposed with timer 0. -/
theorem c5_witness :
    (tick cPopIS 0 [0, 0]).trials
      = [{ i := 0, j := 1, prob := 3/10, u := 0, success := true }]
    ∧ (getP (tick cPopIS 0 [0, 0]).pop 1).state = .E
    ∧ (getP (tick cPopIS 0 [0, 0]).pop 1).timer = 0 := by
  have htr : (tick cPopIS 0 [0, 0]).trials
      = [{ i := 0, j := 1, prob := (3:ℚ)/10, u := 0, success := true }] := by
    simp [tick, transmissionPass, infectFrom, tryInfect, getP, withinRadius, effectiveProb,
      draw, updateAll, Person.update, wrapCoord, cPopIS, cPersonI, cPersonS, List.range_succ,
      WIDTH, HEIGHT, infection_radius, p_transmission_uncontrolled, p_transmission_controlled,
      control_time, dt, infectious_mean, infectious_std, tickPBase]
    norm_num
    simp [transmissionPass, infectFrom, tryInfect, getP, withinRadius, effectiveProb, draw,
      List.range_succ]
  have h := (c5_probability_policy cPopIS 0 [0, 0]).2.2.2
    { i := 0, j := 1, prob := (3:ℚ)/10, u := 0, success := true } (by rw [htr]; simp)
  exact ⟨htr, (h.2.2 rfl).1, (h.2.2 rfl).2⟩

/-- C10: after the vaccination-assignment pass over a freshly constructed
(unvaccinated, dose-0) population, every vaccinated agent has dose 1 or 2 and
every unvaccinated agent has dose 0; ticks never change either field; and
under that invariant the fallback branch of the effective-probability
computation (vaccinated with any other dose) is unreachable: the function
coincides with the two-branch version that has no fallback. -/
theorem c10_vaccination_consistency :
    (∀ (ps : List Person) (rng : List ℚ),
      (∀ p ∈ ps, p.vaccinated = false ∧ p.dose = 0) →
      ∀ p ∈ (assignVaccination ps rng).1,
        (p.vaccinated = true → p.dose = 1 ∨ p.dose = 2)
        ∧ (p.vaccinated = false → p.dose = 0))
    ∧ (∀ (pop : List Person) (time : ℚ) (rng : List ℚ) (k : ℕ),
        (getP (tick pop time rng).pop k).vaccinated = (getP pop k).vaccinated
        ∧ (getP (tick pop time rng).pop k).dose = (getP pop k).dose)
    ∧ (∀ (q : Person) (pB : ℚ), (q.vaccinated = true → q.dose = 1 ∨ q.dose = 2) →
        effectiveProb q pB
          = (if q.vaccinated = true then (if q.dose = 1 then (5/1000 : ℚ) else 2/1000)
             else pB)) := by
  refine ⟨?_, ?_, ?_⟩
  · intro ps
    induction ps with
    | nil =>
      intro rng h p hp
      simp [assignVaccination] at hp
    | cons a as ih =>
      intro rng h p hp
      by_cases hu : (draw rng).1 < 3/10
      · simp only [assignVaccination, hu, if_pos] at hp
        rcases List.mem_cons.1 hp with rfl | hp
        · refine ⟨fun _ => ?_, fun hf => ?_⟩
          · by_cases h8 : (draw (draw rng).2).1 < 8/10 <;> simp [h8]
          · simp at hf
        · exact ih (draw (draw rng).2).2 (fun q hq => h q (List.mem_cons_of_mem a hq)) p hp
      · simp only [assignVaccination, hu, if_neg, if_false] at hp
        rcases List.mem_cons.1 hp with rfl | hp
        · obtain ⟨hv, hd⟩ := h p (List.mem_cons_self _ _)
          exact ⟨fun ht => absurd ht (by simp [hv]), fun _ => hd⟩
        · exact ih (draw rng).2 (fun q hq => h q (List.mem_cons_of_mem a hq)) p hp
  · intro pop time rng k
    simp only [tick_unfold]
    obtain ⟨hlen, hev, _, _, _⟩ := pass_inv (updateAll dt pop rng).1 (tickPBase time)
      infection_radius (updateAll dt pop rng).2
    obtain ⟨_, _, _, _, hvac, hdose, _⟩ := hev k
    by_cases hk : k < pop.length
    · obtain ⟨r, hr⟩ := getP_updateAll dt pop rng k hk
      rw [hvac, hdose, hr, update_vaccinated, update_dose]
      exact ⟨rfl, rfl⟩
    · rw [hvac, hdose, getP_updateAll_out dt pop rng k (le_of_not_lt hk)]
      exact ⟨rfl, rfl⟩
  · intro q pB hq
    by_cases hv : q.vaccinated = true
    · rcases hq hv with h1 | h2
      · simp [effectiveProb, hv, h1]
      · simp [effectiveProb, hv, h2]
    · simp [effectiveProb, hv]

/-- Witness for C10 on a concrete run: a single fresh agent, vaccinated by
draw 0 < 0.3 and given one dose by draw 0.9 ≥ 0.8; the theorem yields that
its dose count is 1 or 2. -/
theorem c10_witness :
    (assignVaccination [mkPerson 1 2 3 4] [0, 9/10]).1
      = [{ posx := 1, posy := 2, velx := 3, vely := 4, state := .S, timer := 0,
           vaccinated := true, dose := 1 }]
    ∧ ((1 : ℕ) = 1 ∨ (1 : ℕ) = 2) := by
  have hres : (assignVaccination [mkPerson 1 2 3 4] [0, 9/10]).1
      = [{ posx := 1, posy := 2, velx := 3, vely := 4, state := .S, timer := 0,
           vaccinated := true, dose := 1 }] := by
    norm_num [assignVaccination, mkPerson, draw]
  have h := (c10_vaccination_consistency.1 [mkPerson 1 2 3 4] [0, 9/10]
    (by intro p hp; simp [mkPerson] at hp; simp [hp])
    { posx := 1, posy := 2, velx := 3, vely := 4, state := .S, timer := 0,
      vaccinated := true, dose := 1 } (by rw [hres]; simp)).1 rfl
  exact ⟨hres, by simp at h; simp [h]⟩

/-- C1 counterexample: an Infectious agent whose clamped infectious-period
draw is already exceeded (raw draw −6 gives `max 0 (80 + 15 ⬝ (−6)) = 0`)
transitions to Recovered, and its `stateTimer` is NOT reset on that
compartment transition: it keeps the freshly incremented value 0.1 ≠ 0. -/
theorem c1_counterexample :
    ((cPersonI.update (1/10) [-6]).1).state = .R
    ∧ ((cPersonI.update (1/10) [-6]).1).timer = 1/10
    ∧ ((1 : ℚ)/10 ≠ 0) := by
  refine ⟨?_, ?_, by norm_num⟩ <;>
  norm_num [Person.update, cPersonI, draw, wrapCoord, WIDTH, HEIGHT, infectious_mean,
    infectious_std]

/-- C1 amended: the timer is non-negative at all times (for a non-negative
step), and is reset to 0 on the Susceptible → Exposed and Exposed →
Infectious transitions; on the Infectious → Recovered transition it is NOT
reset but keeps its incremented value. -/
theorem c1_amended (p : Person) (d : ℚ) (rng : List ℚ)
    (pop : List Person) (pB r : ℚ) (rng2 : List ℚ) (k : ℕ)
    (hd : 0 ≤ d) (ht : 0 ≤ p.timer) :
    0 ≤ ((p.update d rng).1).timer
    ∧ (p.state = .E → ((p.update d rng).1).state = .I → ((p.update d rng).1).timer = 0)
    ∧ (p.state = .I → ((p.update d rng).1).state = .R →
        ((p.update d rng).1).timer = p.timer + d)
    ∧ ((getP (transmissionPass pop pB r rng2).pop k).state ≠ (getP pop k).state →
        (getP (transmissionPass pop pB r rng2).pop k).timer = 0)
    ∧ (0 ≤ (getP pop k).timer → 0 ≤ (getP (transmissionPass pop pB r rng2).pop k).timer) := by
  obtain ⟨_, hev, _, _, _⟩ := pass_inv pop pB r rng2
  obtain ⟨_, _, _, _, _, _, hst⟩ := hev k
  refine ⟨?_, ?_, ?_, ?_, ?_⟩
  · rcases update_timer_cases p d rng with h | h | h <;> rw [h] <;> linarith
  · intro hE hI
    obtain ⟨hs, htm, _⟩ := update_E_char p d rng hE
    by_cases hc : p.timer + d ≥ max 0 (incubation_mean + incubation_std * (draw rng).1)
    · rw [htm, if_pos hc]
    · rw [hs, if_neg hc] at hI
      cases hI
  · intro hI _
    exact (update_I_char p d rng hI).2.1
  · intro hch
    rcases hst with ⟨he, _⟩ | ⟨_, _, h0⟩
    · exact absurd he hch
    · exact h0
  · intro h0
    rcases hst with ⟨_, he⟩ | ⟨_, _, hz⟩
    · rw [he]; exact h0
    · rw [hz]

/-- Witness for C1 amended: an Exposed agent whose clamped draw is 0
transitions to Infectious, and the theorem yields that its timer is reset
to 0 there. -/
theorem c1_witness :
    (0 : ℚ) ≤ 1/10 ∧ cPersonE.state = .E
    ∧ ((cPersonE.update (1/10) [-10]).1).state = .I
    ∧ ((cPersonE.update (1/10) [-10]).1).timer = 0 := by
  have hstate : ((cPersonE.update (1/10) [-10]).1).state = .I := by
    norm_num [Person.update, cPersonE, draw, wrapCoord, WIDTH, HEIGHT, incubation_mean,
      incubation_std]
  have h := c1_amended cPersonE (1/10) [-10] [] 0 0 [] 0 (by norm_num)
    (by norm_num [cPersonE])
  exact ⟨by norm_num, rfl, hstate, h.2.1 rfl hstate⟩

/-- C2 counterexample: an Exposed agent with the raw draw stream
`[100, −10]`.  On the first update the fresh draw gives the clamped
threshold 2060, the agent stays Exposed and the draw is consumed; on the
second update the NEXT fresh draw gives the clamped threshold 0 and the
agent becomes Infectious at elapsed time 0.2, although 0.2 is far below the
threshold 2060 observed while entering/first dwelling in Exposed.  A
threshold drawn once on entry and held fixed could not produce this run, and
a fresh gauss draw is consumed on every tick spent in the compartment. -/
theorem c2_counterexample :
    (cPersonE.update (1/10) [100, -10]).1 = { cPersonE with timer := 1/10 }
    ∧ (cPersonE.update (1/10) [100, -10]).2 = [-10]
    ∧ (Person.update { cPersonE with timer := 1/10 } (1/10) [-10]).1.state = .I
    ∧ (Person.update { cPersonE with timer := 1/10 } (1/10) [-10]).1.timer = 0
    ∧ (Person.update { cPersonE with timer := 1/10 } (1/10) [-10]).2 = []
    ∧ ((1:ℚ)/10 + 1/10) < max 0 (incubation_mean + incubation_std * 100) := by
  refine ⟨?_, ?_, ?_, ?_, ?_, ?_⟩ <;>
  norm_num [Person.update, cPersonE, draw, wrapCoord, WIDTH, HEIGHT, incubation_mean,
    incubation_std]

/-- C2 amended: the dwell threshold is NOT drawn once on entering the
compartment: every single `Person.update` of an Exposed (resp. Infectious)
agent increments the timer by `dt` and compares it against
`max 0 (mean + std ⬝ z)` for a fresh gauss draw `z` consumed in that very
call; the agent transitions exactly when the incremented timer reaches that
per-call resampled clamped value. -/
theorem c2_amended (p : Person) (d : ℚ) (rng : List ℚ) :
    (p.state = .E →
      ((p.update d rng).1).state
          = (if p.timer + d ≥ max 0 (incubation_mean + incubation_std * (draw rng).1)
             then SEIRState.I else SEIRState.E)
      ∧ ((p.update d rng).1).timer
          = (if p.timer + d ≥ max 0 (incubation_mean + incubation_std * (draw rng).1)
             then 0 else p.timer + d)
      ∧ (p.update d rng).2 = (draw rng).2)
    ∧ (p.state = .I →
      ((p.update d rng).1).state
          = (if p.timer + d ≥ max 0 (infectious_mean + infectious_std * (draw rng).1)
             then SEIRState.R else SEIRState.I)
      ∧ ((p.update d rng).1).timer = p.timer + d
      ∧ (p.update d rng).2 = (draw rng).2) :=
  ⟨update_E_char p d rng, update_I_char p d rng⟩

/-- Witness for C2 amended: the Exposed agent with draw 100 (clamped
threshold 2060) stays Exposed with timer 0.1 after one update, as the
theorem's characterization evaluates. -/
theorem c2_witness :
    cPersonE.state = .E
    ∧ ((cPersonE.update (1/10) [100]).1).state = .E
    ∧ ((cPersonE.update (1/10) [100]).1).timer = 1/10 := by
  have h := (c2_amended cPersonE (1/10) [100]).1 rfl
  refine ⟨rfl, ?_, ?_⟩
  · rw [h.1]
    norm_num [cPersonE, draw, incubation_mean, incubation_std]
  · rw [h.2.1]
    norm_num [cPersonE, draw, incubation_mean, incubation_std]

/-- C3 counterexample: the agent at x = 799.9 moving with velocity 1 for
one step of dt = 0.1 lands exactly on x = 800 = W, which the wrap code
(strict comparisons) leaves untouched; the resulting position is NOT inside
the half-open interval `[0, W)`. -/
theorem c3_counterexample :
    ((cPersonEdge.update (1/10) []).1).posx = WIDTH
    ∧ ¬ ((cPersonEdge.update (1/10) []).1).posx < WIDTH := by
  constructor <;>
  norm_num [Person.update, cPersonEdge, draw, wrapCoord, WIDTH, HEIGHT]

/-- C3 amended: for an in-range starting position and a per-axis
displacement of at most one dimension, the post-update position lies in the
CLOSED box `[0, W] × [0, H]` (the endpoint is reachable, so the half-open
box of the claim fails), and a coordinate that exits the interval is
re-entered from the opposite edge by exactly the dimension size — neither
clamped nor reflected. -/
theorem c3_amended (p : Person) (d : ℚ) (rng : List ℚ)
    (hx0 : 0 ≤ p.posx) (hx1 : p.posx ≤ WIDTH) (hy0 : 0 ≤ p.posy) (hy1 : p.posy ≤ HEIGHT)
    (hvx : |p.velx * d| ≤ WIDTH) (hvy : |p.vely * d| ≤ HEIGHT) :
    (0 ≤ ((p.update d rng).1).posx ∧ ((p.update d rng).1).posx ≤ WIDTH
      ∧ 0 ≤ ((p.update d rng).1).posy ∧ ((p.update d rng).1).posy ≤ HEIGHT)
    ∧ (p.posx + p.velx * d > WIDTH →
        ((p.update d rng).1).posx = p.posx + p.velx * d - WIDTH)
    ∧ (p.posx + p.velx * d < 0 →
        ((p.update d rng).1).posx = p.posx + p.velx * d + WIDTH)
    ∧ (p.posy + p.vely * d > HEIGHT →
        ((p.update d rng).1).posy = p.posy + p.vely * d - HEIGHT)
    ∧ (p.posy + p.vely * d < 0 →
        ((p.update d rng).1).posy = p.posy + p.vely * d + HEIGHT) := by
  obtain ⟨hax1, hax2⟩ := abs_le.1 hvx
  obtain ⟨hay1, hay2⟩ := abs_le.1 hvy
  have hbx := wrapCoord_bounds (p.posx + p.velx * d) WIDTH (by linarith) (by linarith)
  have hby := wrapCoord_bounds (p.posy + p.vely * d) HEIGHT (by linarith) (by linarith)
  have hW : (0 : ℚ) < WIDTH := by norm_num [WIDTH]
  have hH : (0 : ℚ) < HEIGHT := by norm_num [HEIGHT]
  rw [update_posx, update_posy]
  refine ⟨⟨hbx.1, hbx.2, hby.1, hby.2⟩, ?_, ?_, ?_, ?_⟩
  · intro hgt
    unfold wrapCoord
    rw [if_neg (by linarith : ¬ p.posx + p.velx * d < 0), if_pos hgt]
  · intro hlt
    unfold wrapCoord
    rw [if_pos hlt]
  · intro hgt
    unfold wrapCoord
    rw [if_neg (by linarith : ¬ p.posy + p.vely * d < 0), if_pos hgt]
  · intro hlt
    unfold wrapCoord
    rw [if_pos hlt]

/-- Witness for C3 amended, the spec's own example: the agent at
(W − 0.1, y) with velocity (+5, 0) and dt = 1 ends at x = 4.9, inside
`[0, W]`, having been shifted by exactly W. -/
theorem c3_witness :
    ((cPersonFast.update 1 []).1).posx = 49/10
    ∧ 0 ≤ ((cPersonFast.update 1 []).1).posx
    ∧ ((cPersonFast.update 1 []).1).posx ≤ WIDTH := by
  have h := c3_amended cPersonFast 1 [] (by norm_num [cPersonFast])
    (by norm_num [cPersonFast, WIDTH]) (by norm_num [cPersonFast])
    (by norm_num [cPersonFast, HEIGHT]) (by norm_num [cPersonFast, WIDTH])
    (by norm_num [cPersonFast, HEIGHT])
  refine ⟨?_, h.1.1, h.1.2.1⟩
  rw [h.2.1 (by norm_num [cPersonFast, WIDTH])]
  norm_num [cPersonFast, WIDTH]

/-- C4 counterexample: after movement, agents 1 (Infectious) and 2
(Susceptible) are at distance 0 < 15, yet the tick trials only the pair
(0, 2): agent 2 was converted by the earlier successful trial of (0, 2), so
the later pair (1, 2) — Infectious/Susceptible in the post-movement state —
is never trialed.  The trialed pairs are therefore not exactly those that
are Infectious/Susceptible in the post-movement state. -/
theorem c4_counterexample :
    (tick cPop3 0 [0, 0, 0]).trials
      = [{ i := 0, j := 2, prob := 3/10, u := 0, success := true }]
    ∧ (getP (updateAll dt cPop3 [0, 0, 0]).1 1).state = .I
    ∧ (getP (updateAll dt cPop3 [0, 0, 0]).1 2).state = .S
    ∧ withinRadius
        |(getP (updateAll dt cPop3 [0, 0, 0]).1 1).posx
          - (getP (updateAll dt cPop3 [0, 0, 0]).1 2).posx|
        |(getP (updateAll dt cPop3 [0, 0, 0]).1 1).posy
          - (getP (updateAll dt cPop3 [0, 0, 0]).1 2).posy|
        infection_radius = true
    ∧ (∀ t ∈ (tick cPop3 0 [0, 0, 0]).trials, ¬ (t.i = 1 ∧ t.j = 2)) := by
  have htr : (tick cPop3 0 [0, 0, 0]).trials
      = [{ i := 0, j := 2, prob := (3:ℚ)/10, u := 0, success := true }] := by
    simp [tick, transmissionPass, infectFrom, tryInfect, getP, withinRadius, effectiveProb,
      draw, updateAll, Person.update, wrapCoord, cPop3, cPersonI, cPersonS, List.range_succ,
      WIDTH, HEIGHT, infection_radius, p_transmission_uncontrolled, p_transmission_controlled,
      control_time, dt, infectious_mean, infectious_std, tickPBase]
    norm_num
    simp [transmissionPass, infectFrom, tryInfect, getP, withinRadius, effectiveProb, draw,
      List.range_succ]
  refine ⟨htr, ?_, ?_, ?_, ?_⟩
  · norm_num [updateAll, Person.update, getP, draw, wrapCoord, cPop3, cPersonI, cPersonS,
      WIDTH, HEIGHT, dt, infectious_mean, infectious_std]
  · norm_num [updateAll, Person.update, getP, draw, wrapCoord, cPop3, cPersonI, cPersonS,
      WIDTH, HEIGHT, dt, infectious_mean, infectious_std]
  · norm_num [updateAll, Person.update, getP, draw, wrapCoord, cPop3, cPersonI, cPersonS,
      WIDTH, HEIGHT, dt, infectious_mean, infectious_std, withinRadius, infection_radius]
  · rw [htr]
    simp

/-- C4 amended: every trial of the pass pairs an Infectious source with a
target that was Susceptible when the pair was scanned (hence Susceptible in
the post-movement input), at unwrapped squared distance strictly below the
squared radius — so pairs at distance exactly the radius are never trialed —
and conversely every Infectious/Susceptible pair of the input strictly
inside the radius is either trialed or its target was converted by an
earlier successful trial of the same pass. -/
theorem c4_amended (pop : List Person) (pB r : ℚ) (rng : List ℚ) :
    (∀ t ∈ (transmissionPass pop pB r rng).trials,
        t.i < pop.length ∧ t.j < pop.length
        ∧ (getP pop t.i).state = .I ∧ (getP pop t.j).state = .S
        ∧ 0 < r
        ∧ ((getP pop t.i).posx - (getP pop t.j).posx) ^ 2
            + ((getP pop t.i).posy - (getP pop t.j).posy) ^ 2 < r ^ 2)
    ∧ (∀ i j : ℕ, i < pop.length → j < pop.length →
        (getP pop i).state = .I → (getP pop j).state = .S →
        0 < r →
        ((getP pop i).posx - (getP pop j).posx) ^ 2
          + ((getP pop i).posy - (getP pop j).posy) ^ 2 < r ^ 2 →
        (∃ t ∈ (transmissionPass pop pB r rng).trials, t.i = i ∧ t.j = j)
        ∨ (∃ t ∈ (transmissionPass pop pB r rng).trials, t.j = j ∧ t.success = true)) := by
  obtain ⟨_, _, hsound, _, _⟩ := pass_inv pop pB r rng
  constructor
  · intro t ht
    obtain ⟨hi, hj, hiI, hjS, hw, _, _⟩ := hsound t ht
    obtain ⟨hr, hd⟩ := (withinRadius_iff _ _ _).1 hw
    rw [sq_abs, sq_abs] at hd
    exact ⟨hi, hj, hiI, hjS, hr, hd⟩
  · intro i j hi hj hiI hjS hr hd
    apply pass_complete pop pB r rng i j hi hj hiI hjS
    rw [withinRadius_iff, sq_abs, sq_abs]
    exact ⟨hr, hd⟩

/-- Witness for C4 amended: one Infectious and one Susceptible agent at the
same point and a draw that fails the trial; the theorem yields that the
qualifying pair (0, 1) is trialed or converted. -/
theorem c4_witness :
    (∃ t ∈ (transmissionPass cPopIS (3/10) 15 [1]).trials, t.i = 0 ∧ t.j = 1)
    ∨ (∃ t ∈ (transmissionPass cPopIS (3/10) 15 [1]).trials, t.j = 1 ∧ t.success = true) := by
  apply (c4_amended cPopIS (3/10) 15 [1]).2 0 1
  · norm_num [cPopIS]
  · norm_num [cPopIS]
  · simp [getP, cPopIS, cPersonI]
  · simp [getP, cPopIS, cPersonS]
  · norm_num
  · norm_num [getP, cPopIS, cPersonI, cPersonS]

/-- C8 counterexample: the invalid configuration radius = −1 is NOT rejected
and nothing aborts: the transmission pass runs normally and simply performs
no trials (the strict distance test never holds for a non-positive radius).
The program has no construction-time configuration validation at all. -/
theorem c8_counterexample :
    ((-1 : ℚ) ≤ 0 ∧ ¬ (0 : ℚ) < -1)
    ∧ (transmissionPass cPop3 (3/10) (-1) [0]).pop = cPop3
    ∧ (transmissionPass cPop3 (3/10) (-1) [0]).trials = [] := by
  refine ⟨⟨by norm_num, by norm_num⟩, ?_, ?_⟩ <;>
  norm_num [transmissionPass, infectFrom, tryInfect, getP, withinRadius, effectiveProb,
    draw, cPop3, cPersonI, cPersonS, List.range_succ]

/-- C8 amended: the program performs no configuration validation; its
hardcoded module-level constants happen to satisfy the validity constraints
(positive population size, radius and time step, probabilities within
`[0, 1]`), and an invalid non-positive radius would not be rejected — every
transmission pass under it is simply a complete no-op rather than an error. -/
theorem c8_amended :
    (0 < N ∧ 0 < infection_radius ∧ 0 < dt
      ∧ 0 ≤ p_transmission_uncontrolled ∧ p_transmission_uncontrolled ≤ 1
      ∧ 0 ≤ p_transmission_controlled ∧ p_transmission_controlled ≤ 1)
    ∧ (∀ (pop : List Person) (pB : ℚ) (rng : List ℚ) (r : ℚ), r ≤ 0 →
        transmissionPass pop pB r rng = { pop := pop, trials := [], rng := rng }) := by
  refine ⟨?_, ?_⟩
  · refine ⟨by norm_num [N], by norm_num [infection_radius], by norm_num [dt], ?_, ?_, ?_, ?_⟩ <;>
    norm_num [p_transmission_uncontrolled, p_transmission_controlled]
  · intro pop pB rng r hr
    exact pass_nonpos pop pB r rng hr

/-- Witness for C8 amended at the concrete invalid radius −1: the pass over
a concrete population is a no-op, not a rejection. -/
theorem c8_witness :
    ((-1 : ℚ) ≤ 0)
    ∧ transmissionPass cPopIS (3/10) (-1) []
        = { pop := cPopIS, trials := [], rng := ([] : List ℚ) } :=
  ⟨by norm_num, c8_amended.2 cPopIS (3/10) [] (-1) (by norm_num)⟩

end Covid
